import Mathlib

/-!
Shallow embedding of the transport and session resilience layer of the
mytube-android client: error classification (`parseApiError`, `shouldRetry`),
envelope unwrapping (`unwrap`), the in-flight request guard
(`buildInFlightKey`, `withInFlightKey` modelled as a ledger step relation),
the transport interceptor retry/reauth policy, startup role resolution,
logout, and polling jitter.  Definitions are translated from the TypeScript
source files; theorems settle the frozen claims about them.
-/

namespace MyTube

/-! ## JS string primitives (on `List Char`) -/

/-- ASCII uppercase of one character, mirroring `String.prototype.toUpperCase`
on the ASCII range used by HTTP method names. -/
def asciiUpper (c : Char) : Char :=
  if 'a' ≤ c ∧ c ≤ 'z' then Char.ofNat (c.toNat - 32) else c

/-- ASCII lowercase of one character, mirroring the case-insensitive `/i`
regex flag on the ASCII range. -/
def asciiLower (c : Char) : Char :=
  if 'A' ≤ c ∧ c ≤ 'Z' then Char.ofNat (c.toNat + 32) else c

/-- Mirrors `String.prototype.trim`: drop leading and trailing whitespace. -/
def jsTrim (l : List Char) : List Char :=
  ((l.dropWhile Char.isWhitespace).reverse.dropWhile Char.isWhitespace).reverse

/-- Mirrors `String.prototype.toUpperCase` for ASCII content. -/
def jsUpper (l : List Char) : List Char :=
  l.map asciiUpper

/-! ## Error model (src/core/api/errors.ts, given as unnamed/part_008) -/

/-- The closed `AppErrorCode` union type. -/
inductive AppErrorCode where
  | UNAUTHENTICATED
  | FORBIDDEN
  | VALIDATION
  | NOT_FOUND
  | CONFLICT
  | RATE_LIMIT
  | SERVER
  | NETWORK
  | UNKNOWN
  deriving DecidableEq, Repr

/-- The `AppError` record.  `httpStatus`, `waitTimeMs` and `retryAfterMs` are
optional numbers; the opaque `raw` field is omitted (it carries no behaviour). -/
structure AppError where
  code : AppErrorCode
  httpStatus : Option Int := none
  message : List Char := []
  backendType : Option (List Char) := none
  recoverable : Option Bool := none
  waitTimeMs : Option Int := none
  retryAfterMs : Option Int := none
  deriving DecidableEq, Repr

/-- The duck-typed `ErrorBody` interface: every field optional.  The source
field `type` is spelled `type'` because `type` is a Lean keyword. -/
structure ErrorBody where
  success : Option Bool := none
  error : Option (List Char) := none
  message : Option (List Char) := none
  statusCode : Option Int := none
  type' : Option (List Char) := none
  recoverable : Option Bool := none
  waitTime : Option Int := none
  deriving DecidableEq, Repr

/-- Mirrors `mapStatusToCode`: the switch over the effective status. -/
def mapStatusToCode (status : Int) : AppErrorCode :=
  if status = 401 then .UNAUTHENTICATED
  else if status = 403 then .FORBIDDEN
  else if status = 404 then .NOT_FOUND
  else if status = 409 then .CONFLICT
  else if status = 429 then .RATE_LIMIT
  else if status = 400 then .VALIDATION
  else if 500 ≤ status then .SERVER
  else .UNKNOWN

/-- Mirrors `getMessage`: `body.error ?? body.message ?? fallback`. -/
def getMessage (body : ErrorBody) (fallback : List Char) : List Char :=
  (body.error.orElse fun _ => body.message).getD fallback

/-- JS `Math.round`: round half toward positive infinity. -/
def jsRound (q : ℚ) : Int :=
  ⌊q + 1 / 2⌋

/-- External JS runtime primitives used by retry-hint parsing: `Number(text)`
(`none` models NaN or non-finite), `Date.parse` (`none` models NaN), and
`Date.now()` in milliseconds. -/
structure JsEnv where
  numberParse : List Char → Option ℚ
  dateParse : List Char → Option Int
  nowMs : Int

/-- The `retryAfter` input: absent, a finite number of seconds, or a string. -/
inductive RetryAfterValue where
  | absent
  | num (q : ℚ)
  | str (s : List Char)
  deriving Repr

/-- The `Date.parse` fallback branch of `parseRetryAfterMs`: compute the delta
from now, floored at 0 (the `Math.round` on an integer delta is a no-op). -/
def dateFallback (env : JsEnv) (text : List Char) : Option Int :=
  match env.dateParse text with
  | none => none
  | some at' => if at' - env.nowMs ≤ 0 then some 0 else some (at' - env.nowMs)

/-- Mirrors `parseRetryAfterMs`: finite number of seconds becomes
milliseconds; a numeric string likewise; otherwise try parsing the string as
an absolute timestamp; anything else is absent. -/
def parseRetryAfterMs (env : JsEnv) : RetryAfterValue → Option Int
  | .absent => none
  | .num q => if 0 ≤ q then some (jsRound (q * 1000)) else none
  | .str s =>
      let text := jsTrim s
      if text = [] then none
      else
        match env.numberParse text with
        | some q => if 0 ≤ q then some (jsRound (q * 1000)) else dateFallback env text
        | none => dateFallback env text

/-- JS truthiness of an optional string: present and nonempty. -/
def truthyStr : Option (List Char) → Bool
  | none => false
  | some s => s ≠ []

/-- Mirrors `parseApiError`.  `body = none` models a nullish body.  A nullish
body together with a truthy network message yields the `NETWORK` branch with
no `httpStatus`; otherwise the effective status is `body.statusCode` when
`body.success === false` and `statusCode` is numeric, else the wire status. -/
def parseApiError (env : JsEnv) (httpStatus : Int) (body : Option ErrorBody)
    (networkMessage : Option (List Char)) (retryAfter : RetryAfterValue) : AppError :=
  let retryAfterMs := parseRetryAfterMs env retryAfter
  if body = none ∧ truthyStr networkMessage then
    { code := .NETWORK
      message := networkMessage.getD []
      retryAfterMs := retryAfterMs }
  else
    let b := body.getD {}
    let effectiveStatus :=
      match b.success, b.statusCode with
      | some false, some n => n
      | _, _ => httpStatus
    { code := mapStatusToCode effectiveStatus
      httpStatus := some effectiveStatus
      message := getMessage b ("Request failed (".data ++ (toString effectiveStatus).data ++ ")".data)
      backendType := b.type'
      recoverable := b.recoverable
      waitTimeMs := b.waitTime
      retryAfterMs := retryAfterMs }

/-- Mirrors `NO_RETRY_STATUSES`. -/
def NO_RETRY_STATUSES : List Int := [400, 401, 403, 404, 409, 429]

/-- JS truthiness of the optional numeric `httpStatus` field. -/
def truthyStatus : Option Int → Bool
  | none => false
  | some n => n ≠ 0

/-- Mirrors `shouldRetry`: `NETWORK` first, then `SERVER` with a truthy status
at least 500, then the non-retryable status fence, else false. -/
def shouldRetry (e : AppError) : Bool :=
  if e.code = .NETWORK then true
  else if e.code = .SERVER ∧ truthyStatus e.httpStatus ∧ (e.httpStatus.getD 0) ≥ 500 then true
  else if truthyStatus e.httpStatus ∧ (e.httpStatus.getD 0) ∈ NO_RETRY_STATUSES then false
  else false

/-! ## Envelope unwrapping (src/core/api/unwrap.ts, given as unnamed/part_008) -/

/-- A JSON-like value, sufficient to express the duck-typed checks of
`unwrap`: `typeof raw === 'object'`, key presence, and `success === true`. -/
inductive JsVal where
  | null
  | bool (b : Bool)
  | num (q : ℚ)
  | str (s : List Char)
  | arr (elems : List JsVal)
  | obj (fields : List ((List Char) × JsVal))

/-- First-match field lookup on an object's field list (JS object keys are
unique, so first-match equals the unique binding). -/
def fieldLookup : List ((List Char) × JsVal) → List Char → Option JsVal
  | [], _ => none
  | (k, v) :: rest, key => if k = key then some v else fieldLookup rest key

/-- Mirrors `unwrap`: return `raw.data` exactly when `raw` is a non-null
object with `success === true` and a `data` key present; otherwise return
`raw` unchanged. -/
def unwrap (raw : JsVal) : JsVal :=
  match raw with
  | .obj fields =>
      match fieldLookup fields "success".data with
      | some (.bool true) =>
          match fieldLookup fields "data".data with
          | some d => d
          | none => .obj fields
      | _ => .obj fields
  | v => v

/-! ## In-flight key normalization (src/core/api/inFlight.ts) -/

/-- Scanner for `collapseSlashes`: the flag records whether the previous
character already was a slash, so that every maximal run of slashes emits
exactly one slash. -/
def collapseAux : Bool → List Char → List Char
  | _, [] => []
  | prevSlash, c :: rest =>
      if c = '/' then
        if prevSlash then collapseAux true rest
        else '/' :: collapseAux true rest
      else c :: collapseAux false rest

/-- Collapse every run of consecutive slashes to a single slash, mirroring
`replace` of two-or-more slashes with one. -/
def collapseSlashes (l : List Char) : List Char :=
  collapseAux false l

/-- Strip all trailing slashes, mirroring `replace` of a trailing slash run
with the empty string. -/
def stripTrailingSlashes (l : List Char) : List Char :=
  (l.reverse.dropWhile (· = '/')).reverse

/-- The segment of a character list before the first question mark, the first
component of the JS `split` on a question mark. -/
def beforeQuestion (l : List Char) : List Char :=
  l.takeWhile (· ≠ '?')

/-- The second component of the JS `split` on a question mark (between the
first and second question marks), defaulting to empty. -/
def secondSegment (l : List Char) : List Char :=
  match l.dropWhile (· ≠ '?') with
  | [] => []
  | _ :: rest => rest.takeWhile (· ≠ '?')

/-- Mirrors `normalizePath`: trim; empty becomes the bare root; ensure a
leading slash; split off the query; collapse repeated slashes and strip
trailing slashes on the path (empty collapses to the root); reattach a
nonempty query. -/
def normalizePathL (path : List Char) : List Char :=
  let trimmed := jsTrim path
  if trimmed = [] then ['/']
  else
    let withLeadingSlash := if trimmed.head? = some '/' then trimmed else '/' :: trimmed
    let rawPath := beforeQuestion withLeadingSlash
    let rawQuery := secondSegment withLeadingSlash
    let np := stripTrailingSlashes (collapseSlashes rawPath)
    let np := if np = [] then ['/'] else np
    if rawQuery = [] then np else np ++ '?' :: rawQuery

/-- A character that may appear in the host group of the absolute-URL regex:
anything but slash, question mark and hash. -/
def notDelim (c : Char) : Bool :=
  ¬(c = '/' ∨ c = '?' ∨ c = '#')

/-- A character that may appear in the path group of the absolute-URL regex:
anything but question mark and hash. -/
def notQH (c : Char) : Bool :=
  ¬(c = '?' ∨ c = '#')

/-- The case-insensitive scheme part of the absolute-URL regex: consume a
leading http or https scheme followed by colon-slash-slash (the colon and
slashes matched literally), returning the consumed scheme text and the
remainder.  The optional `s` is matched greedily, as the regex does. -/
def schemeSplit (cs : List Char) : Option (List Char × List Char) :=
  match cs with
  | c1 :: c2 :: c3 :: c4 :: c5 :: rest =>
      if asciiLower c1 = 'h' ∧ asciiLower c2 = 't' ∧ asciiLower c3 = 't' ∧ asciiLower c4 = 'p' then
        if asciiLower c5 = 's' then
          match rest with
          | c6 :: c7 :: c8 :: rest2 =>
              if c6 = ':' ∧ c7 = '/' ∧ c8 = '/' then
                some ([c1, c2, c3, c4, c5, c6, c7, c8], rest2)
              else none
          | _ => none
        else
          match c5, rest with
          | ':', c6 :: c7 :: rest2 =>
              if c6 = '/' ∧ c7 = '/' then some ([c1, c2, c3, c4, c5, c6, c7], rest2)
              else none
          | _, _ => none
      else none
  | _ => none

/-- The anchored regex of `normalizeAbsoluteUrl` as a parser: a
case-insensitive http or https scheme, a nonempty host free of slash,
question mark and hash, an optional path group starting with a slash and free
of question mark and hash, and an optional query group starting with a
question mark and free of hash.  Returns origin, path group and query
group. -/
def parseAbs (cs : List Char) : Option (List Char × Option (List Char) × Option (List Char)) :=
  match schemeSplit cs with
  | none => none
  | some (scheme, rest) =>
      let host := rest.takeWhile notDelim
      if host = [] then none
      else
        let rest2 := rest.dropWhile notDelim
        match rest2 with
        | '/' :: pr =>
            let path := '/' :: pr.takeWhile notQH
            let rest3 := pr.dropWhile notQH
            match rest3 with
            | '?' :: qr => some (scheme ++ host, some path, some ('?' :: qr.takeWhile (· ≠ '#')))
            | _ => some (scheme ++ host, some path, none)
        | '?' :: qr => some (scheme ++ host, none, some ('?' :: qr.takeWhile (· ≠ '#')))
        | _ => some (scheme ++ host, none, none)

/-- Mirrors `normalizeAbsoluteUrl`: on a regex match, strip trailing slashes
from the origin, normalize the path group (absent means the bare root), and
keep the query group verbatim; on no match fall back to `normalizePathL`. -/
def normalizeAbsoluteUrlL (urlText : List Char) : List Char :=
  match parseAbs (jsTrim urlText) with
  | none => normalizePathL urlText
  | some (originRaw, pathGroup, queryGroup) =>
      let origin := stripTrailingSlashes originRaw
      let p0 := stripTrailingSlashes (collapseSlashes (pathGroup.getD "/".data))
      let path := if p0 = [] then ['/'] else p0
      let query := queryGroup.getD []
      origin ++ path ++ query

/-- The path normalization described for a path component: an absent or
empty component is the bare root; otherwise collapse repeated slashes and
strip trailing slashes, an emptied path falling back to the bare root. -/
def normSegment (p : List Char) : List Char :=
  let base := if p = [] then ['/'] else p
  let out := stripTrailingSlashes (collapseSlashes base)
  if out = [] then ['/'] else out

/-- True when the trimmed target starts with a lowercase http or https
scheme, the branch condition of `normalizeTarget`. -/
def startsWithScheme (l : List Char) : Bool :=
  "http://".data.isPrefixOf l || "https://".data.isPrefixOf l

/-- Mirrors `normalizeTarget`. -/
def normalizeTargetL (target : List Char) : List Char :=
  let trimmed := jsTrim target
  if trimmed = [] then ['/']
  else if startsWithScheme trimmed then normalizeAbsoluteUrlL trimmed
  else normalizePathL trimmed

/-- Mirrors `buildInFlightKey`: the method trimmed and uppercased, one space,
the normalized target. -/
def buildInFlightKeyL (method : List Char) (target : List Char) : List Char :=
  jsUpper (jsTrim method) ++ ' ' :: normalizeTargetL target

/-- String-level wrapper of `buildInFlightKeyL`. -/
def buildInFlightKey (method : String) (target : String) : String :=
  ⟨buildInFlightKeyL method.data target.data⟩

/-! ## In-flight ledger (src/core/api/inFlight.ts, `withInFlightKey`)

The ledger maps each key to the identifier of the promise registered under
it; promise identifiers stand for the pending handles.  `withInFlightCall`
is the synchronous body of `withInFlightKey` (lookup, possible registration
of a fresh handle, and whether the factory was invoked); `settleCleanup` is
the `finally` callback of the registered promise (delete the entry only if
it is still the one that settled). -/

/-- The in-flight ledger: key to registered promise identifier. -/
abbrev Ledger := List (List Char × Nat)

/-- Map lookup on the ledger. -/
def ledgerLookup : Ledger → List Char → Option Nat
  | [], _ => none
  | (k, p) :: rest, key => if k = key then some p else ledgerLookup rest key

/-- Map deletion on the ledger. -/
def ledgerRemove : Ledger → List Char → Ledger
  | [], _ => []
  | (k, p) :: rest, key =>
      if k = key then ledgerRemove rest key else (k, p) :: ledgerRemove rest key

/-- Result of the synchronous body of `withInFlightKey`: the handle returned
to the caller, the ledger afterwards, and whether the request factory was
scheduled. -/
structure CallResult where
  handle : Nat
  ledger : Ledger
  invokedFactory : Bool
  deriving DecidableEq, Repr

/-- Mirrors `withInFlightKey`: an existing entry is returned as-is with no
new execution; otherwise the fresh handle is registered and the factory is
invoked. -/
def withInFlightCall (L : Ledger) (key : List Char) (fresh : Nat) : CallResult :=
  match ledgerLookup L key with
  | some existing => ⟨existing, L, false⟩
  | none => ⟨fresh, (key, fresh) :: L, true⟩

/-- Mirrors the `finally` cleanup of `withInFlightKey`: delete the entry for
the key only when the registered entry is still the settled handle. -/
def settleCleanup (L : Ledger) (key : List Char) (settled : Nat) : Ledger :=
  if ledgerLookup L key = some settled then ledgerRemove L key else L

/-! ## Transport interceptor policy (src/core/api/client.ts) -/

/-- Mirrors `MAX_RETRIES`. -/
def MAX_RETRIES : Nat := 2

/-- Mirrors `RETRY_DELAY_MS`. -/
def RETRY_DELAY_MS : Nat := 1000

/-- Mirrors `RETRYABLE_METHODS`. -/
def RETRYABLE_METHODS : List (List Char) := ["GET".data, "HEAD".data, "OPTIONS".data]

/-- Mirrors `isRetryableMethod`: non-strings are not retryable; the method is
trimmed and uppercased; the empty string is not retryable; membership in the
retryable set decides. -/
def isRetryableMethod : Option (List Char) → Bool
  | none => false
  | some m =>
      let normalizedMethod := jsUpper (jsTrim m)
      if normalizedMethod.length = 0 then false
      else RETRYABLE_METHODS.contains normalizedMethod

/-- Mirrors `shouldTriggerReauth`: `UNAUTHENTICATED` always; `FORBIDDEN`
only on a retryable (read) method. -/
def shouldTriggerReauth (method : Option (List Char)) (e : AppError) : Bool :=
  if e.code = .UNAUTHENTICATED then true
  else if e.code = .FORBIDDEN ∧ isRetryableMethod method then true
  else false

/-- Outcome of the response-error interceptor for a request that has a
config: whether a retry is scheduled, the retry counter written back to the
config, the delay waited before the retry, and whether the unauthorized
callback fires. -/
structure InterceptOutcome where
  retry : Bool
  newRetryCount : Nat
  delayMs : Nat
  reauth : Bool
  deriving DecidableEq, Repr

/-- Mirrors the error branch of `api.interceptors.response` for a non-null
config: retry when the accumulated count is below `MAX_RETRIES`, the method
is retryable and the classified error is retry-worthy, with delay
`RETRY_DELAY_MS` times the incremented count; otherwise consult
`shouldTriggerReauth` and reject. -/
def interceptResponse (method : Option (List Char)) (retryCount : Nat) (e : AppError) :
    InterceptOutcome :=
  if retryCount < MAX_RETRIES ∧ isRetryableMethod method ∧ shouldRetry e then
    { retry := true
      newRetryCount := retryCount + 1
      delayMs := RETRY_DELAY_MS * (retryCount + 1)
      reauth := false }
  else
    { retry := false
      newRetryCount := retryCount
      delayMs := 0
      reauth := shouldTriggerReauth method e }

/-! ## Session controller (src/core/auth/AuthProvider, passkey.ts part) -/

/-- The client role tier; the nullable role of the source is `Option Role`. -/
inductive Role where
  | admin
  | visitor
  deriving DecidableEq, Repr

/-- Mirrors `normalizeRole`: only the exact strings admin and visitor. -/
def normalizeRole (v : JsVal) : Option Role :=
  match v with
  | .str s =>
      if s = "admin".data then some .admin
      else if s = "visitor".data then some .visitor
      else none
  | _ => none

/-- Mirrors `getRoleFromSettings`: read `role`, `userRole`, `currentRole`
in order with nullish coalescing; non-objects yield null. -/
def getRoleFromSettings (settings : JsVal) : Option Role :=
  match settings with
  | .obj fields =>
      ((fieldLookup fields "role".data).bind normalizeRole).orElse fun _ =>
        ((fieldLookup fields "userRole".data).bind normalizeRole).orElse fun _ =>
          (fieldLookup fields "currentRole".data).bind normalizeRole
  | _ => none

/-- Mirrors `resolveStartupRole`: an open-access deployment always clears the
role; otherwise the probed role survives only with a valid session. -/
def resolveStartupRole (loginRequired : Bool) (hasValidSession : Bool)
    (probeRole : Option Role) : Option Role :=
  if ¬loginRequired then none
  else if hasValidSession then probeRole else none

/-- The `/settings/password-enabled` response: both fields optional. -/
structure PasswordEnabledResponse where
  loginRequired : Option Bool := none
  enabled : Option Bool := none
  deriving DecidableEq, Repr

/-- Outcome of the `getSettings` probe: a settings payload or an `AppError`
rejection. -/
inductive SettingsProbe where
  | ok (settings : JsVal)
  | err (e : AppError)

/-- The slice of auth state that `refreshAuthConfig` resolves on its main
path, together with the role written to persistent storage. -/
structure RefreshOutcome where
  loginRequired : Bool
  hasValidSession : Bool
  role : Option Role
  persistedRole : Option Role
  error : Option AppError
  deriving DecidableEq, Repr

/-- Mirrors the main path of `refreshAuthConfig` (the `getPasswordEnabled`
call succeeded): derive `loginRequired` from the response with nullish
coalescing; when login is required, probe settings — success validates the
session and refines the probed role, an auth-class rejection invalidates the
session, any other rejection demotes `loginRequired` and surfaces the error;
finally resolve the role through `resolveStartupRole` and persist it. -/
def refreshAuthConfigModel (pe : PasswordEnabledResponse) (storedRole : Option Role)
    (probe : SettingsProbe) : RefreshOutcome :=
  let loginRequired0 := pe.loginRequired.getD (pe.enabled.getD false)
  let probeRole0 : Option Role := if loginRequired0 then storedRole else none
  let step :
      Bool × Bool × Option Role × Option AppError :=
    if loginRequired0 then
      match probe with
      | .ok settings =>
          (loginRequired0, true, (getRoleFromSettings settings).orElse fun _ => probeRole0, none)
      | .err e =>
          if e.code = .UNAUTHENTICATED ∨ e.code = .FORBIDDEN then
            (loginRequired0, false, probeRole0, none)
          else
            (false, false, probeRole0, some e)
    else
      (loginRequired0, ¬loginRequired0, probeRole0, none)
  let resolvedRole := resolveStartupRole step.1 step.2.1 step.2.2.1
  { loginRequired := step.1
    hasValidSession := step.2.1
    role := resolvedRole
    persistedRole := resolvedRole
    error := step.2.2.2 }

/-- The auth state fields touched by `logout`. -/
structure AuthState where
  role : Option Role
  hasValidSession : Bool
  loginRequired : Bool
  loading : Bool
  error : Option AppError
  waitTimeMs : Option Int
  deriving Repr

/-- Outcome of `logout`: the state after the `finally` block, the stored
role after `safeSetStoredRole`, and the settled result of the returned
promise. -/
structure LogoutOutcome where
  state : AuthState
  storedRole : Option Role
  result : Except AppError Unit
  deriving Repr

/-- Mirrors `logout`: `await apiLogout()` inside a try whose `finally` clears
the stored role and the session fields; with no catch, the remote outcome
(resolution or rejection) is propagated to the caller after the cleanup. -/
def logout (remote : Except AppError Unit) (s : AuthState) : LogoutOutcome :=
  { state := { s with role := none, hasValidSession := false, error := none, waitTimeMs := none }
    storedRole := none
    result := remote }

/-! ## Polling jitter (src/core/utils/polling.ts, given as unnamed part) -/

/-- Mirrors `getJitteredIntervalMs`: the base interval scaled by a uniform
factor in the 0.8 to 1.2 band, rounded, floored at 1000 milliseconds.  The
random draw `r` of `Math.random()` is passed explicitly. -/
def getJitteredIntervalMs (baseMs : ℚ) (r : ℚ) : Int :=
  max 1000 (jsRound (baseMs * (4 / 5 + r * (2 / 5))))

/-! ## Helper lemmas -/

@[simp]
theorem truthyStatus_none : truthyStatus none = false := rfl

@[simp]
theorem truthyStatus_some (n : Int) : truthyStatus (some n) = decide (n ≠ 0) := rfl

theorem shouldRetry_code {e : AppError} (h : shouldRetry e = true) :
    e.code = .NETWORK ∨ e.code = .SERVER := by
  by_contra hc
  push_neg at hc
  simp only [shouldRetry] at h
  rw [if_neg hc.1, if_neg (by intro hx; exact hc.2 hx.1)] at h
  split_ifs at h

theorem interceptResponse_pos {method : Option (List Char)} {rc : Nat} {e : AppError}
    (h : rc < MAX_RETRIES ∧ isRetryableMethod method ∧ shouldRetry e) :
    interceptResponse method rc e =
      ⟨true, rc + 1, RETRY_DELAY_MS * (rc + 1), false⟩ := by
  simp only [interceptResponse, if_pos h]

theorem interceptResponse_neg {method : Option (List Char)} {rc : Nat} {e : AppError}
    (h : ¬(rc < MAX_RETRIES ∧ isRetryableMethod method ∧ shouldRetry e)) :
    interceptResponse method rc e =
      ⟨false, rc, 0, shouldTriggerReauth method e⟩ := by
  simp only [interceptResponse, if_neg h]

theorem isRetryableMethod_iff (method : Option (List Char)) :
    isRetryableMethod method = true ↔
      ∃ m, method = some m ∧
        (jsUpper (jsTrim m) = "GET".data ∨ jsUpper (jsTrim m) = "HEAD".data ∨
          jsUpper (jsTrim m) = "OPTIONS".data) := by
  cases method with
  | none => simp [isRetryableMethod]
  | some m =>
      simp only [isRetryableMethod, RETRYABLE_METHODS, Option.some.injEq]
      constructor
      · intro h
        split_ifs at h with hlen
        refine ⟨m, rfl, ?_⟩
        simp only [List.contains, List.elem_eq_mem, decide_eq_true_eq, List.mem_cons,
          List.mem_singleton, List.not_mem_nil, or_false] at h
        exact h
      · rintro ⟨m', hm, hcases⟩
        obtain rfl : m = m' := hm
        have hlen : ¬(jsUpper (jsTrim m)).length = 0 := by
          rcases hcases with h | h | h <;> rw [h] <;> decide
        rw [if_neg hlen]
        simp only [List.contains, List.elem_eq_mem, decide_eq_true_eq, List.mem_cons,
          List.mem_singleton, List.not_mem_nil, or_false]
        exact hcases

theorem ledgerLookup_remove (L : Ledger) (k : List Char) :
    ledgerLookup (ledgerRemove L k) k = none := by
  induction L with
  | nil => rfl
  | cons hd tl ih =>
      obtain ⟨k', p'⟩ := hd
      by_cases hk : k' = k
      · simpa [ledgerRemove, hk] using ih
      · simpa [ledgerRemove, ledgerLookup, hk] using ih

theorem takeWhile_all {p : Char → Bool} : ∀ {l : List Char},
    (∀ c ∈ l, p c = true) → l.takeWhile p = l := by
  intro l
  induction l with
  | nil => intro _; rfl
  | cons a t ih =>
      intro h
      rw [List.takeWhile_cons, if_pos (h a (List.mem_cons_self a t))]
      rw [ih fun c hc => h c (List.mem_cons_of_mem a hc)]

theorem takeWhile_all_append {p : Char → Bool} : ∀ {l₁ : List Char} (l₂ : List Char),
    (∀ c ∈ l₁, p c = true) → (l₁ ++ l₂).takeWhile p = l₁ ++ l₂.takeWhile p := by
  intro l₁
  induction l₁ with
  | nil => intro l₂ _; rfl
  | cons a t ih =>
      intro l₂ h
      rw [List.cons_append, List.takeWhile_cons, if_pos (h a (List.mem_cons_self a t))]
      rw [ih l₂ fun c hc => h c (List.mem_cons_of_mem a hc), List.cons_append]

theorem dropWhile_all_append {p : Char → Bool} : ∀ {l₁ : List Char} (l₂ : List Char),
    (∀ c ∈ l₁, p c = true) → (l₁ ++ l₂).dropWhile p = l₂.dropWhile p := by
  intro l₁
  induction l₁ with
  | nil => intro l₂ _; rfl
  | cons a t ih =>
      intro l₂ h
      rw [List.cons_append, List.dropWhile_cons, if_pos (h a (List.mem_cons_self a t))]
      exact ih l₂ fun c hc => h c (List.mem_cons_of_mem a hc)

theorem head_dropWhile_false {p : Char → Bool} : ∀ {l : List Char} {a : Char},
    (l.dropWhile p).head? = some a → p a = false := by
  intro l
  induction l with
  | nil => intro a h; simp [List.dropWhile] at h
  | cons b t ih =>
      intro a h
      rw [List.dropWhile_cons] at h
      by_cases hb : p b
      · rw [if_pos hb] at h
        exact ih h
      · rw [if_neg hb] at h
        simp only [List.head?_cons, Option.some.injEq] at h
        rw [← h]
        exact Bool.eq_false_iff.mpr hb

theorem dropWhile_eq_self_of_head {p : Char → Bool} {l : List Char}
    (h : ∀ a, l.head? = some a → p a = false) : l.dropWhile p = l := by
  cases l with
  | nil => rfl
  | cons a t =>
      rw [List.dropWhile_cons, if_neg ?_]
      rw [h a rfl]
      simp

theorem dropWhile_idem (p : Char → Bool) (l : List Char) :
    (l.dropWhile p).dropWhile p = l.dropWhile p :=
  dropWhile_eq_self_of_head fun _ ha => head_dropWhile_false ha

theorem jsTrim_idem (l : List Char) : jsTrim (jsTrim l) = jsTrim l := by
  simp only [jsTrim]
  have hstep : (((l.dropWhile Char.isWhitespace).reverse.dropWhile
      Char.isWhitespace).reverse).dropWhile Char.isWhitespace =
      ((l.dropWhile Char.isWhitespace).reverse.dropWhile Char.isWhitespace).reverse := by
    apply dropWhile_eq_self_of_head
    intro a ha
    rw [List.head?_reverse] at ha
    have hne : (l.dropWhile Char.isWhitespace).reverse.dropWhile Char.isWhitespace ≠ [] := by
      intro hnil
      rw [hnil] at ha
      exact Option.noConfusion ha
    have hsplit := List.takeWhile_append_dropWhile (p := Char.isWhitespace)
      (l := (l.dropWhile Char.isWhitespace).reverse)
    have hlast : ((l.dropWhile Char.isWhitespace).reverse.dropWhile
        Char.isWhitespace).getLast? = (l.dropWhile Char.isWhitespace).reverse.getLast? := by
      conv_rhs => rw [← hsplit]
      exact (List.getLast?_append_of_ne_nil _ hne).symm
    rw [hlast, List.getLast?_reverse] at ha
    exact head_dropWhile_false ha
  rw [hstep, List.reverse_reverse, dropWhile_idem]

theorem normalizePathL_trim (t : List Char) :
    normalizePathL (jsTrim t) = normalizePathL t := by
  simp only [normalizePathL, jsTrim_idem]

theorem stripTrailing_exists_junk (l : List Char) :
    ∃ junk, l = stripTrailingSlashes l ++ junk := by
  refine ⟨(l.reverse.takeWhile (· = '/')).reverse, ?_⟩
  rw [stripTrailingSlashes, ← List.reverse_append]
  rw [List.takeWhile_append_dropWhile, List.reverse_reverse]

theorem stripTrailing_cons_head {a : Char} {y : List Char} :
    stripTrailingSlashes (a :: y) = [] ∨
    ∃ z, stripTrailingSlashes (a :: y) = a :: z := by
  cases hs : stripTrailingSlashes (a :: y) with
  | nil => exact Or.inl rfl
  | cons c z =>
      refine Or.inr ⟨z, ?_⟩
      obtain ⟨junk, hj⟩ := stripTrailing_exists_junk (a :: y)
      rw [hs] at hj
      rw [List.cons_append] at hj
      injection hj with h1 _
      rw [h1]

theorem stripTrailing_append_nonslash (l₁ l₂ : List Char) (h2 : l₂ ≠ [])
    (hall : ∀ c ∈ l₂, c ≠ '/') :
    stripTrailingSlashes (l₁ ++ l₂) = l₁ ++ l₂ := by
  rw [stripTrailingSlashes, List.reverse_append]
  have hh : ∀ a : Char, (l₂.reverse ++ l₁.reverse : List Char).head? = some a →
      decide (a = '/') = false := by
    intro a ha
    cases hrev : l₂.reverse with
    | nil => exact absurd (by simpa using congrArg List.reverse hrev) h2
    | cons b t =>
        rw [hrev, List.cons_append, List.head?_cons] at ha
        have hab : b = a := by injection ha
        have hb : b ∈ l₂ := by
          rw [← List.mem_reverse, hrev]
          exact List.mem_cons_self b t
        rw [← hab]
        simpa using hall b hb
  rw [dropWhile_eq_self_of_head hh, ← List.reverse_append, List.reverse_reverse]

theorem collapseSlashes_cons (a : Char) (l : List Char) :
    ∃ y, collapseSlashes (a :: l) = a :: y := by
  by_cases h : a = '/'
  · subst h
    exact ⟨collapseAux true l, rfl⟩
  · exact ⟨collapseAux false l, by simp [collapseSlashes, collapseAux, h]⟩

theorem normalizePathL_leading (t : List Char) :
    ∃ r, normalizePathL t = '/' :: r := by
  simp only [normalizePathL]
  by_cases h0 : jsTrim t = []
  · rw [if_pos h0]
    exact ⟨[], rfl⟩
  · rw [if_neg h0]
    have hwls : ∃ w, (if (jsTrim t).head? = some '/' then jsTrim t else '/' :: jsTrim t) =
        '/' :: w := by
      by_cases hh : (jsTrim t).head? = some '/'
      · rw [if_pos hh]
        cases ht : jsTrim t with
        | nil => exact absurd ht h0
        | cons c w =>
            rw [ht] at hh
            simp only [List.head?_cons, Option.some.injEq] at hh
            exact ⟨w, by rw [hh]⟩
      · exact ⟨jsTrim t, by rw [if_neg hh]⟩
    obtain ⟨w, hw⟩ := hwls
    rw [hw]
    have hq : beforeQuestion ('/' :: w) = '/' :: w.takeWhile (· ≠ '?') := by
      rw [beforeQuestion, List.takeWhile_cons]
      simp
    rw [hq]
    obtain ⟨y, hy⟩ := collapseSlashes_cons '/' (w.takeWhile (· ≠ '?'))
    rw [hy]
    rcases stripTrailing_cons_head (a := '/') (y := y) with hnil | ⟨z, hz⟩
    · rw [hnil]
      simp only [if_pos rfl]
      by_cases hrq : secondSegment ('/' :: w) = []
      · rw [if_pos hrq]; exact ⟨[], rfl⟩
      · rw [if_neg hrq]; exact ⟨'?' :: secondSegment ('/' :: w), rfl⟩
    · rw [hz]
      rw [if_neg (List.cons_ne_nil '/' z)]
      by_cases hrq : secondSegment ('/' :: w) = []
      · rw [if_pos hrq]; exact ⟨z, rfl⟩
      · rw [if_neg hrq]
        exact ⟨z ++ '?' :: secondSegment ('/' :: w), by rw [List.cons_append]⟩

theorem takeWhile_cons_false {p : Char → Bool} {a : Char} {l : List Char}
    (h : p a = false) : (a :: l).takeWhile p = [] := by
  simp [List.takeWhile_cons, h]

theorem dropWhile_cons_false {p : Char → Bool} {a : Char} {l : List Char}
    (h : p a = false) : (a :: l).dropWhile p = a :: l := by
  simp [List.dropWhile_cons, h]

theorem isPrefixOf_append_self (p l : List Char) : p.isPrefixOf (p ++ l) = true := by
  induction p with
  | nil => simp [List.isPrefixOf]
  | cons a t ih => simp [List.isPrefixOf, ih]

theorem takeWhile_tail_nil {path query : List Char}
    (hpath : path = [] ∨ ∃ pr, path = '/' :: pr ∧ ∀ c ∈ pr, notQH c = true)
    (hquery : query = [] ∨ ∃ qr, query = '?' :: qr ∧ ∀ c ∈ qr, c ≠ '#') :
    (path ++ query).takeWhile notDelim = [] := by
  rcases hpath with rfl | ⟨pr, rfl, _⟩
  · rcases hquery with rfl | ⟨qr, rfl, _⟩
    · rfl
    · exact takeWhile_cons_false (by decide)
  · exact takeWhile_cons_false (by decide)

theorem dropWhile_tail_self {path query : List Char}
    (hpath : path = [] ∨ ∃ pr, path = '/' :: pr ∧ ∀ c ∈ pr, notQH c = true)
    (hquery : query = [] ∨ ∃ qr, query = '?' :: qr ∧ ∀ c ∈ qr, c ≠ '#') :
    (path ++ query).dropWhile notDelim = path ++ query := by
  rcases hpath with rfl | ⟨pr, rfl, _⟩
  · rcases hquery with rfl | ⟨qr, rfl, _⟩
    · rfl
    · exact dropWhile_cons_false (by decide)
  · exact dropWhile_cons_false (by decide)

theorem parseAbs_components (scheme host path query : List Char)
    (hscheme : scheme = "http://".data ∨ scheme = "https://".data)
    (hne : host ≠ [])
    (hhost : ∀ c ∈ host, notDelim c = true)
    (hpath : path = [] ∨ ∃ pr, path = '/' :: pr ∧ ∀ c ∈ pr, notQH c = true)
    (hquery : query = [] ∨ ∃ qr, query = '?' :: qr ∧ ∀ c ∈ qr, c ≠ '#') :
    parseAbs (scheme ++ (host ++ (path ++ query))) =
      some (scheme ++ host, (if path = [] then none else some path),
        (if query = [] then none else some query)) := by
  have hsplit : schemeSplit (scheme ++ (host ++ (path ++ query))) =
      some (scheme, host ++ (path ++ query)) := by
    rcases hscheme with rfl | rfl <;> rfl
  have htw : (host ++ (path ++ query)).takeWhile notDelim = host := by
    rw [takeWhile_all_append (path ++ query) hhost, takeWhile_tail_nil hpath hquery,
      List.append_nil]
  have hdw : (host ++ (path ++ query)).dropWhile notDelim = path ++ query := by
    rw [dropWhile_all_append (path ++ query) hhost, dropWhile_tail_self hpath hquery]
  simp only [parseAbs, hsplit, htw, hdw]
  rw [if_neg hne]
  rcases hpath with rfl | ⟨pr, rfl, hpr⟩
  · rcases hquery with rfl | ⟨qr, rfl, hqr⟩
    · rfl
    · simp only [List.nil_append]
      have hq : qr.takeWhile (fun c => c ≠ '#') = qr :=
        takeWhile_all fun c hc => by simpa using hqr c hc
      simp [hq]
      exact hqr
  · rcases hquery with rfl | ⟨qr, rfl, hqr⟩
    · simp only [List.cons_append, List.append_nil]
      have hp : pr.takeWhile notQH = pr := takeWhile_all hpr
      have hpd : pr.dropWhile notQH = [] := by
        have hsum := List.takeWhile_append_dropWhile (p := notQH) (l := pr)
        rw [hp] at hsum
        have hlen := congrArg List.length hsum
        simp only [List.length_append] at hlen
        have h0 : (pr.dropWhile notQH).length = 0 := by omega
        exact List.eq_nil_of_length_eq_zero h0
      simp [hp, hpd, hpr]
    · simp only [List.cons_append]
      have hptw : (pr ++ '?' :: qr).takeWhile notQH = pr := by
        rw [takeWhile_all_append ('?' :: qr) hpr, takeWhile_cons_false (by decide),
          List.append_nil]
      have hpdw : (pr ++ '?' :: qr).dropWhile notQH = '?' :: qr := by
        rw [dropWhile_all_append ('?' :: qr) hpr, dropWhile_cons_false (by decide)]
      have hq : qr.takeWhile (fun c => c ≠ '#') = qr :=
        takeWhile_all fun c hc => by simpa using hqr c hc
      simp [hptw, hpdw, hq]
      exact hqr

/-! ## Claim theorems -/

/-- C1: for every call to `parseApiError` with a present response body whose
`success` is `false` and whose `statusCode` is numeric, the returned
`httpStatus` is that body `statusCode` (the effective status) and the code is
mapped from it by the fixed table; for every other present body the
`httpStatus` is the wire status and the code is mapped from the wire
status. -/
theorem claim_C1 (env : JsEnv) (wire : Int) (b : ErrorBody)
    (netMsg : Option (List Char)) (ra : RetryAfterValue) :
    (∀ n : Int, b.success = some false → b.statusCode = some n →
      (parseApiError env wire (some b) netMsg ra).httpStatus = some n ∧
      (parseApiError env wire (some b) netMsg ra).code =
        (if n = 401 then .UNAUTHENTICATED
         else if n = 403 then .FORBIDDEN
         else if n = 404 then .NOT_FOUND
         else if n = 409 then .CONFLICT
         else if n = 429 then .RATE_LIMIT
         else if n = 400 then .VALIDATION
         else if 500 ≤ n then .SERVER
         else .UNKNOWN)) ∧
    (¬(b.success = some false ∧ b.statusCode ≠ none) →
      (parseApiError env wire (some b) netMsg ra).httpStatus = some wire) := by
  obtain ⟨succ, berr, bmsg, sc, ty, brec, bwt⟩ := b
  constructor
  · rintro n rfl rfl
    refine ⟨by simp [parseApiError], ?_⟩
    simp [parseApiError, mapStatusToCode]
  · intro h
    match succ, sc, h with
    | none, _, _ => simp [parseApiError]
    | some true, _, _ => simp [parseApiError]
    | some false, none, _ => simp [parseApiError]
    | some false, some n, h => exact absurd ⟨rfl, by simp⟩ h

/-- C1 witness: a wire status 200 with an embedded `statusCode` 401 is
classified with effective status 401 and code `UNAUTHENTICATED`. -/
theorem claim_C1_witness :
    ({ success := some false, statusCode := some 401 } : ErrorBody).success = some false ∧
    (parseApiError ⟨fun _ => none, fun _ => none, 0⟩ 200
      (some { success := some false, statusCode := some 401 }) none .absent).httpStatus = some 401 ∧
    (parseApiError ⟨fun _ => none, fun _ => none, 0⟩ 200
      (some { success := some false, statusCode := some 401 }) none .absent).code = .UNAUTHENTICATED := by
  refine ⟨rfl, ?_⟩
  have h := (claim_C1 ⟨fun _ => none, fun _ => none, 0⟩ 200
    { success := some false, statusCode := some 401 } none .absent).1 401 rfl rfl
  exact ⟨h.1, by simpa using h.2⟩

/-- C2 counterexample: an `AppError` carrying code `NETWORK` together with
`httpStatus` 429 — a member of the fixed non-retryable set — is retried:
`shouldRetry` consults the code before the non-retryable status fence, so the
fence does not win regardless of code. -/
theorem claim_C2_counterexample :
    (429 : Int) ∈ NO_RETRY_STATUSES ∧
    shouldRetry { code := .NETWORK, httpStatus := some 429, message := [] } = true := by
  constructor
  · decide
  · rfl

/-- C2 amended: `shouldRetry e` is true iff `e.code` is `NETWORK`, or
`e.code` is `SERVER` with `e.httpStatus` at least 500; and every `AppError`
whose `httpStatus` lies in the fixed non-retryable set and whose code is not
`NETWORK` is never retried.  (The unamended claim let the fence override even
a `NETWORK` code, which the code does not do.) -/
theorem claim_C2 (e : AppError) :
    (shouldRetry e = true ↔
      (e.code = .NETWORK ∨ (e.code = .SERVER ∧ ∃ n, e.httpStatus = some n ∧ 500 ≤ n))) ∧
    (∀ n, e.httpStatus = some n → n ∈ NO_RETRY_STATUSES → e.code ≠ .NETWORK →
      shouldRetry e = false) := by
  constructor
  · simp only [shouldRetry]
    split_ifs with h1 h2 h3
    · simp [h1]
    · obtain ⟨hc, ht, hn⟩ := h2
      cases hst : e.httpStatus with
      | none => rw [hst] at ht; simp at ht
      | some n =>
          rw [hst] at hn
          simp only [Option.getD] at hn
          simp only [true_iff]
          exact Or.inr ⟨hc, n, rfl, hn⟩
    · constructor
      · intro hfalse; simp at hfalse
      · rintro (hnet | ⟨hsrv, n, hsome, hge⟩)
        · exact absurd hnet h1
        · refine h2 ⟨hsrv, ?_, ?_⟩
          · rw [hsome, truthyStatus_some, decide_eq_true_eq]; omega
          · rw [hsome]; simpa using hge
    · constructor
      · intro hfalse; simp at hfalse
      · rintro (hnet | ⟨hsrv, n, hsome, hge⟩)
        · exact absurd hnet h1
        · refine h2 ⟨hsrv, ?_, ?_⟩
          · rw [hsome, truthyStatus_some, decide_eq_true_eq]; omega
          · rw [hsome]; simpa using hge
  · intro n hsome hmem hcode
    have h500 : ¬(500 ≤ n) := by
      simp only [NO_RETRY_STATUSES, List.mem_cons, List.mem_singleton,
        List.not_mem_nil, or_false] at hmem
      rcases hmem with h | h | h | h | h | h <;> omega
    simp only [shouldRetry]
    split_ifs with h1 h2
    · exact absurd h1 hcode
    · exfalso
      obtain ⟨_, _, hge⟩ := h2
      rw [hsome] at hge
      simp only [Option.getD] at hge
      exact h500 hge
    · rfl
    · rfl

/-- C2 witness: a `CONFLICT` error with status 409 (in the non-retryable set,
code not `NETWORK`) is not retried, by the amended theorem. -/
theorem claim_C2_witness :
    ({ code := .CONFLICT, httpStatus := some 409, message := [] } : AppError).httpStatus = some 409 ∧
    shouldRetry { code := .CONFLICT, httpStatus := some 409, message := [] } = false := by
  refine ⟨rfl, ?_⟩
  exact (claim_C2 { code := .CONFLICT, httpStatus := some 409, message := [] }).2
    409 rfl (by decide) (by decide)

/-- C3: the interceptor retries exactly when the method (trimmed, uppercased)
is `GET`, `HEAD` or `OPTIONS`, the classified error is retry-worthy, and the
accumulated count is below the ceiling of 2; the delay is 1000 ms times the
incremented attempt number; `POST`, `PUT`, `PATCH`, `DELETE` are never
auto-retried. -/
theorem claim_C3 (method : Option (List Char)) (retryCount : Nat) (e : AppError) :
    ((interceptResponse method retryCount e).retry = true ↔
      (isRetryableMethod method = true ∧ shouldRetry e = true ∧ retryCount < 2)) ∧
    (isRetryableMethod method = true ↔
      ∃ m, method = some m ∧
        (jsUpper (jsTrim m) = "GET".data ∨ jsUpper (jsTrim m) = "HEAD".data ∨
          jsUpper (jsTrim m) = "OPTIONS".data)) ∧
    ((interceptResponse method retryCount e).retry = true →
      (interceptResponse method retryCount e).delayMs = 1000 * (retryCount + 1) ∧
      (interceptResponse method retryCount e).newRetryCount = retryCount + 1) ∧
    (∀ m, method = some m →
      (jsUpper (jsTrim m) = "POST".data ∨ jsUpper (jsTrim m) = "PUT".data ∨
        jsUpper (jsTrim m) = "PATCH".data ∨ jsUpper (jsTrim m) = "DELETE".data) →
      (interceptResponse method retryCount e).retry = false) := by
  refine ⟨?_, isRetryableMethod_iff method, ?_, ?_⟩
  · by_cases h : retryCount < MAX_RETRIES ∧ isRetryableMethod method ∧ shouldRetry e
    · rw [interceptResponse_pos h]
      simp only [true_iff]
      exact ⟨h.2.1, h.2.2, h.1⟩
    · rw [interceptResponse_neg h]
      simp only [Bool.false_eq_true, false_iff]
      rintro ⟨h1, h2, h3⟩
      exact h ⟨h3, h1, h2⟩
  · intro hr
    by_cases h : retryCount < MAX_RETRIES ∧ isRetryableMethod method ∧ shouldRetry e
    · rw [interceptResponse_pos h]
      exact ⟨rfl, rfl⟩
    · rw [interceptResponse_neg h] at hr
      simp at hr
  · rintro m rfl hw
    by_cases h : retryCount < MAX_RETRIES ∧ isRetryableMethod (some m) ∧ shouldRetry e
    · exfalso
      obtain ⟨m', hm, hcases⟩ := (isRetryableMethod_iff (some m)).mp h.2.1
      obtain rfl : m = m' := by injection hm
      rcases hcases with h3 | h3 | h3 <;> rcases hw with g | g | g | g <;>
        · rw [h3] at g
          exact absurd g (by decide)
    · rw [interceptResponse_neg h]

/-- C3 witness: a timed-out `GET` at attempt 0 is retried with a 1000 ms
delay, and a `POST` with the same error is not. -/
theorem claim_C3_witness :
    isRetryableMethod (some "GET".data) = true ∧
    shouldRetry { code := .NETWORK, message := [] } = true ∧ (0 : Nat) < 2 ∧
    (interceptResponse (some "GET".data) 0 { code := .NETWORK, message := [] }).retry = true ∧
    (interceptResponse (some "GET".data) 0 { code := .NETWORK, message := [] }).delayMs = 1000 ∧
    (interceptResponse (some "POST".data) 0 { code := .NETWORK, message := [] }).retry = false := by
  have h1 := (claim_C3 (some "GET".data) 0 { code := .NETWORK, message := [] }).1.mpr
    ⟨by decide, rfl, by decide⟩
  have h2 := ((claim_C3 (some "GET".data) 0 { code := .NETWORK, message := [] }).2.2.1 h1).1
  have h3 := (claim_C3 (some "POST".data) 0 { code := .NETWORK, message := [] }).2.2.2
    "POST".data rfl (Or.inl (by decide))
  exact ⟨by decide, rfl, by decide, h1, by simpa using h2, h3⟩

/-- C4: the unauthorized callback fires exactly when the classified error is
`UNAUTHENTICATED` (any method) or `FORBIDDEN` on an idempotent read method;
`FORBIDDEN` on a write method never fires it. -/
theorem claim_C4 (method : Option (List Char)) (retryCount : Nat) (e : AppError) :
    ((interceptResponse method retryCount e).reauth = true ↔
      (e.code = .UNAUTHENTICATED ∨ (e.code = .FORBIDDEN ∧ isRetryableMethod method = true))) ∧
    (∀ m, method = some m → e.code = .FORBIDDEN → isRetryableMethod method = false →
      (interceptResponse method retryCount e).reauth = false) := by
  have hmain : (interceptResponse method retryCount e).reauth = true ↔
      (e.code = .UNAUTHENTICATED ∨ (e.code = .FORBIDDEN ∧ isRetryableMethod method = true)) := by
    by_cases h : retryCount < MAX_RETRIES ∧ isRetryableMethod method ∧ shouldRetry e
    · rw [interceptResponse_pos h]
      simp only [Bool.false_eq_true, false_iff]
      rintro (hu | ⟨hf, _⟩)
      · rcases shouldRetry_code h.2.2 with hn | hn <;> rw [hu] at hn <;> exact absurd hn (by decide)
      · rcases shouldRetry_code h.2.2 with hn | hn <;> rw [hf] at hn <;> exact absurd hn (by decide)
    · rw [interceptResponse_neg h]
      show shouldTriggerReauth method e = true ↔ _
      simp only [shouldTriggerReauth]
      split_ifs with g1 g2
      · simp [g1]
      · simp only [true_iff]
        exact Or.inr ⟨g2.1, g2.2⟩
      · simp only [Bool.false_eq_true, false_iff]
        rintro (hu | ⟨hf, hr⟩)
        · exact g1 hu
        · exact g2 ⟨hf, hr⟩
  refine ⟨hmain, ?_⟩
  intro m hm hf hr
  rw [Bool.eq_false_iff]
  intro hcontra
  rcases hmain.mp hcontra with hu | ⟨_, hret⟩
  · rw [hf] at hu; exact absurd hu (by decide)
  · rw [hr] at hret; exact absurd hret (by decide)

/-- C4 witness: `UNAUTHENTICATED` on a `POST` fires the callback, and
`FORBIDDEN` on a `POST` does not, by the theorem. -/
theorem claim_C4_witness :
    (interceptResponse (some "POST".data) 0
      { code := .UNAUTHENTICATED, message := [] }).reauth = true ∧
    (interceptResponse (some "POST".data) 0
      { code := .FORBIDDEN, message := [] }).reauth = false := by
  constructor
  · exact (claim_C4 (some "POST".data) 0 { code := .UNAUTHENTICATED, message := [] }).1.mpr
      (Or.inl rfl)
  · exact (claim_C4 (some "POST".data) 0 { code := .FORBIDDEN, message := [] }).2
      "POST".data rfl rfl (by decide)

/-- C5: a call made while an entry for the key is registered returns the
registered handle without invoking the factory and without changing the
ledger; the `finally` cleanup removes the entry exactly when it is still the
registered one; after removal a subsequent call invokes its factory afresh;
a first call registers its fresh handle, and an overlapping second caller
observes that same handle; the factory is invoked iff no entry is
registered. -/
theorem claim_C5 (L : Ledger) (k : List Char) (p fresh fresh2 : Nat) :
    (ledgerLookup L k = some p → withInFlightCall L k fresh = ⟨p, L, false⟩) ∧
    (ledgerLookup (settleCleanup L k p) k =
      if ledgerLookup L k = some p then none else ledgerLookup L k) ∧
    (ledgerLookup L k = some p →
      (withInFlightCall (settleCleanup L k p) k fresh2).invokedFactory = true) ∧
    (ledgerLookup L k = none →
      withInFlightCall L k fresh = ⟨fresh, (k, fresh) :: L, true⟩ ∧
      (withInFlightCall ((k, fresh) :: L) k fresh2).handle = fresh ∧
      (withInFlightCall ((k, fresh) :: L) k fresh2).invokedFactory = false) ∧
    ((withInFlightCall L k fresh).invokedFactory = true ↔ ledgerLookup L k = none) := by
  refine ⟨?_, ?_, ?_, ?_, ?_⟩
  · intro h
    simp [withInFlightCall, h]
  · by_cases h : ledgerLookup L k = some p
    · rw [if_pos h]
      simp [settleCleanup, h, ledgerLookup_remove]
    · rw [if_neg h]
      simp [settleCleanup, h]
  · intro h
    simp [withInFlightCall, settleCleanup, h, ledgerLookup_remove]
  · intro h
    refine ⟨by simp [withInFlightCall, h], ?_, ?_⟩ <;>
      simp [withInFlightCall, ledgerLookup]
  · cases h : ledgerLookup L k with
    | none => simp [withInFlightCall, h]
    | some q => simp [withInFlightCall, h]

/-- C5 witness: on an empty ledger a first call registers and invokes; an
overlapping call reuses the handle without invoking; after the settle
cleanup a third call invokes afresh. -/
theorem claim_C5_witness :
    ledgerLookup ([("POST /x".data, 7)] : Ledger) "POST /x".data = some 7 ∧
    withInFlightCall [("POST /x".data, 7)] "POST /x".data 9 = ⟨7, [("POST /x".data, 7)], false⟩ ∧
    (withInFlightCall (settleCleanup [("POST /x".data, 7)] "POST /x".data 7)
      "POST /x".data 9).invokedFactory = true := by
  refine ⟨by decide, ?_, ?_⟩
  · exact (claim_C5 [("POST /x".data, 7)] "POST /x".data 7 9 9).1 (by decide)
  · exact (claim_C5 [("POST /x".data, 7)] "POST /x".data 7 9 9).2.2.1 (by decide)

/-- C6: `unwrap` returns the `data` field exactly when the input is an object
with `success` strictly equal to `true` and a `data` key present; every other
input is returned unchanged, so unwrapping a bare payload is the identity and
additive unknown fields are never dropped. -/
theorem claim_C6 (v : JsVal) :
    (∀ fields d, v = .obj fields →
      fieldLookup fields "success".data = some (.bool true) →
      fieldLookup fields "data".data = some d → unwrap v = d) ∧
    ((∀ fields d, v = .obj fields →
      fieldLookup fields "success".data = some (.bool true) →
      fieldLookup fields "data".data = some d → False) → unwrap v = v) := by
  constructor
  · rintro fields d rfl hs hd
    simp [unwrap, hs, hd]
  · intro h
    cases v with
    | obj fields =>
        cases hs : fieldLookup fields "success".data with
        | none => simp [unwrap, hs]
        | some sv =>
            cases sv with
            | bool b =>
                cases b with
                | false => simp [unwrap, hs]
                | true =>
                    cases hd : fieldLookup fields "data".data with
                    | none => simp [unwrap, hs, hd]
                    | some d => exact (h fields d rfl hs hd).elim
            | null => simp [unwrap, hs]
            | num q => simp [unwrap, hs]
            | str s => simp [unwrap, hs]
            | arr es => simp [unwrap, hs]
            | obj fs => simp [unwrap, hs]
    | null => rfl
    | bool b => rfl
    | num q => rfl
    | str s => rfl
    | arr es => rfl

/-- C6 witness: a wrapped numeric payload is unwrapped to the payload, and an
object with `success` equal to `false` passes through unchanged. -/
theorem claim_C6_witness :
    unwrap (.obj [("success".data, .bool true), ("data".data, .num 5)]) = .num 5 ∧
    unwrap (.obj [("success".data, .bool false), ("error".data, .str "x".data)]) =
      .obj [("success".data, .bool false), ("error".data, .str "x".data)] := by
  constructor
  · exact (claim_C6 (.obj [("success".data, .bool true), ("data".data, .num 5)])).1
      [("success".data, .bool true), ("data".data, .num 5)] (.num 5) rfl rfl rfl
  · exact (claim_C6 (.obj [("success".data, .bool false), ("error".data, .str "x".data)])).2
      (by rintro fields d h hs hd; injection h with hf; subst hf; simp [fieldLookup] at hs)

/-- C7: the in-flight key is the method trimmed and uppercased, one space,
and the normalized target; relative targets get path normalization with a
guaranteed leading slash; absolute http or https targets keep scheme and
host, have the path component collapsed (repeated slashes) and stripped of
trailing slashes with the bare root staying the root, and keep the query
verbatim. -/
theorem claim_C7 :
    (∀ m t : List Char,
      buildInFlightKeyL m t = jsUpper (jsTrim m) ++ ' ' :: normalizeTargetL t) ∧
    (∀ t : List Char, ∃ r, normalizePathL t = '/' :: r) ∧
    (∀ t : List Char, startsWithScheme (jsTrim t) = false →
      normalizeTargetL t = normalizePathL t) ∧
    (∀ scheme host path query : List Char,
      (scheme = "http://".data ∨ scheme = "https://".data) →
      host ≠ [] →
      (∀ c ∈ host, notDelim c = true) →
      (path = [] ∨ ∃ pr, path = '/' :: pr ∧ ∀ c ∈ pr, notQH c = true) →
      (query = [] ∨ ∃ qr, query = '?' :: qr ∧ ∀ c ∈ qr, c ≠ '#') →
      jsTrim (scheme ++ (host ++ (path ++ query))) = scheme ++ (host ++ (path ++ query)) →
      normalizeTargetL (scheme ++ (host ++ (path ++ query))) =
        scheme ++ host ++ normSegment path ++ query) ∧
    (normSegment [] = ['/'] ∧ normSegment ['/'] = ['/']) ∧
    (∀ l : List Char, collapseSlashes ('/' :: '/' :: l) = collapseSlashes ('/' :: l)) ∧
    (∀ l : List Char, stripTrailingSlashes (l ++ ['/']) = stripTrailingSlashes l) := by
  refine ⟨fun m t => rfl, normalizePathL_leading, ?_, ?_, ⟨by decide, by decide⟩, ?_, ?_⟩
  · intro t h
    simp only [normalizeTargetL]
    by_cases h0 : jsTrim t = []
    · rw [if_pos h0]
      have hnp : normalizePathL t = ['/'] := by
        simp only [normalizePathL, h0]
        simp
      rw [hnp]
    · rw [if_neg h0, if_neg (by simp [h])]
      exact normalizePathL_trim t
  · rintro scheme host path query hscheme hne hhost hpath hquery htrim
    have hsws : startsWithScheme (scheme ++ (host ++ (path ++ query))) = true := by
      rcases hscheme with rfl | rfl <;>
        simp [startsWithScheme, isPrefixOf_append_self]
    have hne2 : scheme ++ (host ++ (path ++ query)) ≠ [] := by
      rcases hscheme with rfl | rfl <;> simp
    have hparse := parseAbs_components scheme host path query hscheme hne hhost hpath hquery
    have horigin : stripTrailingSlashes (scheme ++ host) = scheme ++ host := by
      refine stripTrailing_append_nonslash scheme host hne ?_
      intro c hc hc2
      have hnd := hhost c hc
      simp only [notDelim, decide_eq_true_eq] at hnd
      exact hnd (Or.inl hc2)
    simp only [normalizeTargetL, htrim]
    rw [if_neg hne2, if_pos hsws]
    simp only [normalizeAbsoluteUrlL, htrim, hparse]
    rw [horigin]
    by_cases hp0 : path = []
    · subst hp0
      by_cases hq0 : query = []
      · subst hq0
        simp [normSegment]
      · simp [normSegment, hq0]
    · by_cases hq0 : query = []
      · subst hq0
        simp [normSegment, hp0]
      · simp [normSegment, hp0, hq0]
  · intro l
    rfl
  · intro l
    have h1 : (l ++ ['/']).reverse = '/' :: l.reverse := by
      rw [List.reverse_append]
      rfl
    rw [stripTrailingSlashes, h1, List.dropWhile_cons]
    simp [stripTrailingSlashes]

/-- C7 witness: a concrete absolute URL with doubled slashes, a trailing
slash and a query is normalized keeping scheme, host and query while the
path is collapsed and stripped. -/
theorem claim_C7_witness :
    jsTrim ("http://".data ++ ("h.example".data ++ ("//a//b/".data ++ "?x=1".data))) =
      "http://".data ++ ("h.example".data ++ ("//a//b/".data ++ "?x=1".data)) ∧
    ("h.example".data : List Char) ≠ [] ∧
    normalizeTargetL ("http://".data ++ ("h.example".data ++ ("//a//b/".data ++ "?x=1".data))) =
      "http://".data ++ "h.example".data ++ normSegment "//a//b/".data ++ "?x=1".data := by
  refine ⟨by decide, by decide, ?_⟩
  exact claim_C7.2.2.2.1 "http://".data "h.example".data "//a//b/".data "?x=1".data
    (Or.inl rfl) (by decide) (by decide)
    (Or.inr ⟨"/a//b/".data, rfl, by decide⟩)
    (Or.inr ⟨"x=1".data, rfl, by decide⟩)
    (by decide)

/-- C8: startup role resolution yields null whenever login is not required
(and the model of `refreshAuthConfig` persists exactly this resolved value),
yields the probed role when login is required and the session is valid, and
yields null when login is required and the session is invalid. -/
theorem claim_C8 (pe : PasswordEnabledResponse) (storedRole : Option Role)
    (probe : SettingsProbe) (hv : Bool) (pr : Option Role) :
    (resolveStartupRole false hv pr = none) ∧
    (resolveStartupRole true true pr = pr) ∧
    (resolveStartupRole true false pr = none) ∧
    ((refreshAuthConfigModel pe storedRole probe).persistedRole =
      (refreshAuthConfigModel pe storedRole probe).role) ∧
    ((refreshAuthConfigModel pe storedRole probe).loginRequired = false →
      (refreshAuthConfigModel pe storedRole probe).role = none ∧
      (refreshAuthConfigModel pe storedRole probe).persistedRole = none) := by
  refine ⟨by simp [resolveStartupRole], by simp [resolveStartupRole],
    by simp [resolveStartupRole], rfl, ?_⟩
  intro h
  suffices hrole : (refreshAuthConfigModel pe storedRole probe).role = none by
    exact ⟨hrole, hrole⟩
  simp only [refreshAuthConfigModel] at h ⊢
  rw [h]
  simp [resolveStartupRole]

/-- C8 witness: with login not required and a stale cached admin role, both
the resolved and the persisted role are cleared to null. -/
theorem claim_C8_witness :
    (refreshAuthConfigModel { loginRequired := some false } (some .admin)
      (.err { code := .NETWORK, message := [] })).loginRequired = false ∧
    (refreshAuthConfigModel { loginRequired := some false } (some .admin)
      (.err { code := .NETWORK, message := [] })).role = none ∧
    (refreshAuthConfigModel { loginRequired := some false } (some .admin)
      (.err { code := .NETWORK, message := [] })).persistedRole = none := by
  have h := (claim_C8 { loginRequired := some false } (some .admin)
    (.err { code := .NETWORK, message := [] }) true none).2.2.2.2 rfl
  exact ⟨rfl, h.1, h.2⟩

/-- C9 counterexample: at base interval 100 ms (and random draw 0) the
jittered interval is 1000 ms because of the 1-second floor, which exceeds
the claimed upper bound `1.2 * B = 120`; the sampled interval therefore does
not fall within the claimed band. -/
theorem claim_C9_counterexample :
    getJitteredIntervalMs 100 0 = 1000 ∧
    ¬((getJitteredIntervalMs 100 0 : ℚ) ≤ 6 / 5 * 100) := by
  have hval : getJitteredIntervalMs 100 0 = 1000 := by
    show max 1000 (jsRound (100 * (4 / 5 + 0 * (2 / 5)))) = 1000
    have harg : (100 : ℚ) * (4 / 5 + 0 * (2 / 5)) + 1 / 2 = 161 / 2 := by norm_num
    have hfl : ⌊(161 / 2 : ℚ)⌋ = 80 := by
      rw [Int.floor_eq_iff]
      norm_num

    rw [jsRound, harg, hfl]
    decide
  refine ⟨hval, ?_⟩
  rw [hval]
  norm_num

/-- C9 amended: for every base interval B at least 0 and every draw r in
[0, 1), the jittered interval lies in the band
[max(1000, 0.8 B − 1/2), max(1000, 1.2 B + 1/2)]: the 1-second floor also
bounds the upper end (the claimed bound 1.2 B fails whenever 1.2 B is below
the floor), and rounding can leave the exact ±20 percent band by up to half
a millisecond on each side. -/
theorem claim_C9 (B r : ℚ) (hB : 0 ≤ B) (hr0 : 0 ≤ r) (hr1 : r < 1) :
    max 1000 (4 / 5 * B - 1 / 2) ≤ (getJitteredIntervalMs B r : ℚ) ∧
    (getJitteredIntervalMs B r : ℚ) ≤ max 1000 (6 / 5 * B + 1 / 2) := by
  have hx1 : 4 / 5 * B ≤ B * (4 / 5 + r * (2 / 5)) := by nlinarith
  have hx2 : B * (4 / 5 + r * (2 / 5)) ≤ 6 / 5 * B := by nlinarith
  have hfl : ((jsRound (B * (4 / 5 + r * (2 / 5)))) : ℚ) ≤ B * (4 / 5 + r * (2 / 5)) + 1 / 2 :=
    Int.floor_le _
  have hfg : B * (4 / 5 + r * (2 / 5)) + 1 / 2 < (jsRound (B * (4 / 5 + r * (2 / 5))) : ℚ) + 1 :=
    Int.lt_floor_add_one _
  have hcast : (getJitteredIntervalMs B r : ℚ) =
      max 1000 ((jsRound (B * (4 / 5 + r * (2 / 5)))) : ℚ) := by
    rw [getJitteredIntervalMs]
    push_cast
    rfl
  constructor
  · rw [hcast]
    exact max_le_max le_rfl (by linarith)
  · rw [hcast]
    exact max_le_max le_rfl (by linarith)

/-- C9 witness: at base interval 5000 ms and draw one half, the jittered
interval lies within the amended band. -/
theorem claim_C9_witness :
    (0 : ℚ) ≤ 5000 ∧ (0 : ℚ) ≤ 1 / 2 ∧ (1 / 2 : ℚ) < 1 ∧
    (max 1000 (4 / 5 * 5000 - 1 / 2) ≤ (getJitteredIntervalMs 5000 (1 / 2) : ℚ) ∧
      (getJitteredIntervalMs 5000 (1 / 2) : ℚ) ≤ max 1000 (6 / 5 * 5000 + 1 / 2)) := by
  refine ⟨by norm_num, by norm_num, by norm_num, ?_⟩
  exact claim_C9 5000 (1 / 2) (by norm_num) (by norm_num) (by norm_num)

/-- C10: `logout` clears role, session validity, error and wait time
unconditionally, clears the stored role, and propagates the remote outcome:
a rejected remote logout still rejects the returned promise with the
transport error, after the local sign-out has taken effect. -/
theorem claim_C10 (remote : Except AppError Unit) (s : AuthState) :
    (logout remote s).state.role = none ∧
    (logout remote s).state.hasValidSession = false ∧
    (logout remote s).state.error = none ∧
    (logout remote s).state.waitTimeMs = none ∧
    (logout remote s).storedRole = none ∧
    (∀ e, remote = .error e → (logout remote s).result = .error e) ∧
    (remote = .ok () → (logout remote s).result = .ok ()) := by
  refine ⟨rfl, rfl, rfl, rfl, rfl, ?_, ?_⟩
  · rintro e rfl; rfl
  · rintro rfl; rfl

/-- C10 witness: a remote logout rejecting with a server error still clears
the local session fields and rejects the caller with that error. -/
theorem claim_C10_witness :
    (logout (.error { code := .SERVER, httpStatus := some 500, message := [] })
      { role := some .admin, hasValidSession := true, loginRequired := true,
        loading := false, error := none, waitTimeMs := some 3 }).state.role = none ∧
    (logout (.error { code := .SERVER, httpStatus := some 500, message := [] })
      { role := some .admin, hasValidSession := true, loginRequired := true,
        loading := false, error := none, waitTimeMs := some 3 }).result =
      .error { code := .SERVER, httpStatus := some 500, message := [] } := by
  refine ⟨(claim_C10 _ _).1, ?_⟩
  exact (claim_C10 (.error { code := .SERVER, httpStatus := some 500, message := [] })
    { role := some .admin, hasValidSession := true, loginRequired := true,
      loading := false, error := none, waitTimeMs := some 3 }).2.2.2.2.2.1 _ rfl

end MyTube
